import Mathlib

/-!
Shallow embedding of `@prismamedia/ts-distributed-lock` (core package and the
MongoDB adapter), faithful to the TypeScript sources:

* `packages/ts-distributed-lock/src/lock.ts` — the `Lock` entity and its
  status state machine (the `status` setter);
* `packages/ts-distributed-lock/src/locker.ts` — the `Locker` coordinator
  (GC interval computation, `gc`, `release`);
* `packages/ts-distributed-lock/src/adapter/in-memory-adapter.ts` — the
  in-memory reference adapter (`lock` admission scan, `release`, `gc`);
* `packages/ts-distributed-lock-mongodb-adapter/src/mongodb-adapter.ts` —
  the MongoDB adapter (`isLockAcquired`, `dequeueLock`, `enqueueLock`).

Timestamps (`Date`) are modelled as `Int` (milliseconds), lock identities
(`uniqid` / random hex) as `Nat`, and JavaScript reference equality between
`Lock` objects as equality of their process-unique ids.  Thrown exceptions
become the `Except Err` monad; a thrown error leaves every previously built
value untouched, matching the in-place TypeScript semantics where a `throw`
aborts before further mutation.
-/

/-- `LockType` enum of `lock.ts`. -/
inductive LockType where
  | Writer
  | Reader
deriving DecidableEq, Repr

/-- `LockStatus` enum of `lock.ts`. -/
inductive LockStatus where
  | Acquiring
  | Acquired
  | Releasing
  | Released
  | Rejected
deriving DecidableEq, Repr

/-- Error taxonomy of `error/*.ts`.  `WorkflowLockError extends LockError`
(both carry the offending lock, modelled by its id); `LockerError` is the
generic category used by the in-memory adapter's gc. -/
inductive Err where
  /-- `WorkflowLockError(lock, to)` — names the refused target status. -/
  | workflow (lockId : Nat) (target : LockStatus)
  /-- `LockError(lock, reason)` — attached to a specific lock. -/
  | lockErr (lockId : Nat) (msg : String)
  /-- `LockerError(reason)` — not attached to a lock. -/
  | lockerErr (msg : String)
deriving DecidableEq, Repr

/-- The `Lock` class state of `lock.ts` (last variant, string enums):
private fields `#id`, `#type`, `#status`, `#createdAt`, `#settledAt`,
`#settledIn`, `#releasedAt`, `#acquiredFor`, plus the caller-provided
`options` (`acquireTimeout`, `pullInterval`, both `number | null`,
absent = `none`). -/
structure Lock where
  id : Nat
  name : String
  type : LockType
  status : LockStatus
  createdAt : Int
  settledAt : Option Int := none
  settledIn : Option Int := none
  releasedAt : Option Int := none
  acquiredFor : Option Int := none
  optAcquireTimeout : Option Int := none
  optPullInterval : Option Int := none
deriving DecidableEq, Repr

/-- `new Lock(name, type, options)` — status starts at `Acquiring`,
`createdAt` is stamped with the construction time, all other timestamps
absent. -/
def Lock.init (id : Nat) (type : LockType) (now : Int)
    (optAcquireTimeout optPullInterval : Option Int := none)
    (name : String := "L") : Lock where
  id := id
  name := name
  type := type
  status := LockStatus.Acquiring
  createdAt := now
  optAcquireTimeout := optAcquireTimeout
  optPullInterval := optPullInterval

/-- The guard of the `status` setter of `lock.ts` (lines 612-621): the exact
condition under which the assignment is *not* refused. -/
def statusEdgeOk (curr target : LockStatus) : Bool :=
  (curr == LockStatus.Acquiring &&
    (target == LockStatus.Acquired || target == LockStatus.Rejected)) ||
  (curr == LockStatus.Acquired &&
    (target == LockStatus.Releasing || target == LockStatus.Released)) ||
  (curr == LockStatus.Releasing && target == LockStatus.Released)

/-- The `status` setter of `lock.ts` (lines 611-644).  On a refused edge it
throws `WorkflowLockError(this, status)`.  On entering `Acquired`/`Rejected`
it stamps `settledAt`/`settledIn`; on entering `Released` it requires
`settledAt` to be present (otherwise the internal
`LockError` "Logic error: ... has to be settled for being released") and
stamps `releasedAt`/`acquiredFor`. -/
def setStatus (now : Int) (l : Lock) (target : LockStatus) : Except Err Lock :=
  if ¬ statusEdgeOk l.status target then
    Except.error (Err.workflow l.id target)
  else if target = LockStatus.Acquired ∨ target = LockStatus.Rejected then
    Except.ok { l with
      status := target
      settledAt := some now
      settledIn := some (now - l.createdAt) }
  else if target = LockStatus.Released then
    match l.settledAt with
    | none =>
        Except.error (Err.lockErr l.id
          "Logic error: the lock has to be settled for being released")
    | some sAt =>
        Except.ok { l with
          status := target
          releasedAt := some now
          acquiredFor := some (now - sAt) }
  else
    Except.ok { l with status := target }

/-- `lock.reject(reason)` sets `reason` then assigns `Rejected` (the reason
itself is carried in the error taxonomy, not in our `Lock` state). -/
def Lock.reject (now : Int) (l : Lock) : Except Err Lock :=
  setStatus now l LockStatus.Rejected

/-- The `acquireTimeout` getter of `lock.ts` (lines 675-689): when the
option is set (`!= null`) and `<= 0`, throw a `LockError`; when set and
positive, return it; when unset, return `undefined`. -/
def Lock.acquireTimeoutGet (l : Lock) : Except Err (Option Int) :=
  match l.optAcquireTimeout with
  | some v =>
      if v ≤ 0 then
        Except.error (Err.lockErr l.id
          "The lock acquireTimeout option has to be greater than 0")
      else
        Except.ok (some v)
  | none => Except.ok none

/-- The `pullInterval` getter of `lock.ts` (lines 691-705): when the option
is set (`!= null`) and `<= 0`, throw a `LockError`; when set and positive,
return it; when unset, return the default `25`. -/
def Lock.pullIntervalGet (l : Lock) : Except Err Int :=
  match l.optPullInterval with
  | some v =>
      if v ≤ 0 then
        Except.error (Err.lockErr l.id
          "The lock pullInterval option has to be greater than 0")
      else
        Except.ok v
  | none => Except.ok 25

/-- Run a sequence of status assignments; a refused assignment throws and
therefore leaves the lock unchanged (the caller may catch and go on, as the
Locker does), a successful one updates it. -/
def runTrace (l : Lock) (trace : List (Int × LockStatus)) : Lock :=
  trace.foldl
    (fun acc step =>
      match setStatus step.1 acc step.2 with
      | Except.ok l' => l'
      | Except.error _ => acc)
    l

example :
    setStatus 5 (Lock.init 1 LockType.Writer 2) LockStatus.Acquired =
      Except.ok { Lock.init 1 LockType.Writer 2 with
        status := LockStatus.Acquired, settledAt := some 5,
        settledIn := some 3 } := by rfl

example :
    setStatus 5 (Lock.init 1 LockType.Writer 2) LockStatus.Released =
      Except.error (Err.workflow 1 LockStatus.Released) := by rfl

/-! ## Queues and admission (in-memory `lock` scan, MongoDB `isLockAcquired`) -/

/-- One queue entry: `{ id, type }` (the heartbeat `at` is carried
separately where it matters).  In the in-memory adapter the queue keys are
the `Lock` objects themselves; JavaScript reference equality between those
process-unique objects is modelled by equality of ids. -/
structure Entry where
  id : Nat
  type : LockType
deriving DecidableEq, Repr

/-- The entry a lock contributes to a queue. -/
def Lock.entry (l : Lock) : Entry := ⟨l.id, l.type⟩

/-- JavaScript `Array.prototype.indexOf`: index of the first occurrence, or
`-1` when absent. -/
def jsIndexOf (q : List Entry) (e : Entry) : Int :=
  match q with
  | [] => -1
  | x :: rest =>
      if x = e then 0
      else
        let r := jsIndexOf rest e
        if r = -1 then -1 else r + 1

/-- The in-memory adapter's admission check (`in-memory-adapter.ts`,
lines 59-70): a Writer is admitted when `[...queue.keys()].indexOf(lock)`
is `0`; a Reader is admitted when
`[...queue.keys()].find(l => l === lock || l.type === Writer) === lock`. -/
def inMemoryAdmitted (l : Lock) (q : List Entry) : Bool :=
  if l.type = LockType.Writer then
    jsIndexOf q l.entry == 0
  else
    q.find? (fun e => e == l.entry || e.type == LockType.Writer) == some l.entry

/-- The MongoDB adapter's admission check (`mongodb-adapter.ts`,
lines 315-322): a Writer is admitted when `document.queue[0]?.id === lock.id`;
a Reader is admitted when
`document.queue.find(({id, type}) => id === lock.id || type === Writer)?.id
=== lock.id`. -/
def mongoAdmitted (l : Lock) (q : List Entry) : Bool :=
  if l.type = LockType.Writer then
    (q.head?.map Entry.id) == some l.id
  else
    ((q.find? (fun e => e.id == l.id || e.type == LockType.Writer)).map
      Entry.id) == some l.id

/-- The admission rule in the spec's words: a Writer is admitted iff its
entry is the head of the queue; a Reader is admitted iff no Writer entry
precedes its entry — it splits the queue as `pre ++ own :: post` where `pre`
holds neither the lock's entry nor any Writer. -/
def specAdmitted (l : Lock) (q : List Entry) : Prop :=
  if l.type = LockType.Writer then
    q.head? = some l.entry
  else
    ∃ pre post, q = pre ++ l.entry :: post ∧
      ∀ e ∈ pre, e.id ≠ l.id ∧ e.type ≠ LockType.Writer

/-- `isLockAcquired` (`mongodb-adapter.ts`, lines 307-329) including its
side effect: a missing document throws; on admission the lock's status is
assigned `Acquired` through the state machine. -/
def mongoIsLockAcquired (now : Int) (l : Lock) (doc : Option (List Entry)) :
    Except Err (Bool × Lock) :=
  match doc with
  | none => Except.error (Err.lockErr l.id "The lock is not in the queue anymore")
  | some q =>
      if mongoAdmitted l q then
        match setStatus now l LockStatus.Acquired with
        | Except.ok l' => Except.ok (true, l')
        | Except.error e => Except.error e
      else
        Except.ok (false, l)

/-- One pass of the in-memory acquire loop body (`in-memory-adapter.ts`,
lines 59-71): evaluate the admission rule and, on admission, assign the
status `Acquired` through the state machine. -/
def inMemoryScan (now : Int) (l : Lock) (q : List Entry) : Except Err Lock :=
  if inMemoryAdmitted l q then setStatus now l LockStatus.Acquired
  else Except.ok l

example :
    inMemoryAdmitted (Lock.init 1 LockType.Writer 0)
      [⟨1, LockType.Writer⟩, ⟨2, LockType.Reader⟩] = true := by decide

example :
    inMemoryAdmitted (Lock.init 2 LockType.Reader 0)
      [⟨1, LockType.Writer⟩, ⟨2, LockType.Reader⟩] = false := by decide

example :
    mongoAdmitted (Lock.init 2 LockType.Reader 0)
      [⟨1, LockType.Reader⟩, ⟨2, LockType.Reader⟩] = true := by decide

/-! ## Store state: in-memory storage and MongoDB collection -/

/-- An in-memory queue: the insertion-ordered `Map<Lock, Date>` of
`in-memory-adapter.ts`, entry plus heartbeat. -/
abbrev Queue := List (Entry × Int)

/-- The in-memory storage `Map<LockName, Map<Lock, Date>>`, as an
association list with unique names. -/
abbrev Storage := List (String × Queue)

def storageGet (s : Storage) (n : String) : Option Queue :=
  (s.find? (fun p => p.1 == n)).map (fun p => p.2)

/-- Replace the queue held under an existing name. -/
def storageSetQueue (s : Storage) (n : String) (q : Queue) : Storage :=
  s.map (fun p => if p.1 = n then (n, q) else p)

def queueHasId (q : Queue) (id : Nat) : Bool :=
  q.any (fun e => e.1.id == id)

/-- `Map.prototype.delete`: remove the (unique) key, report whether it was
present. -/
def queueDeleteId (q : Queue) (id : Nat) : Queue :=
  q.eraseP (fun e => e.1.id == id)

/-- `this.storage.get(lock.name)?.delete(lock)` — `false` when the name has
no queue or the lock is not a key of it. -/
def storageDelete (s : Storage) (n : String) (id : Nat) : Storage × Bool :=
  match storageGet s n with
  | none => (s, false)
  | some q =>
      if queueHasId q id then (storageSetQueue s n (queueDeleteId q id), true)
      else (s, false)

/-- `InMemoryAdapter.release` (`in-memory-adapter.ts`, lines 78-84): delete
the entry; when nothing was deleted throw
`LockError(lock, "... was not in the queue anymore")`; otherwise assign the
status `Released`.  The middle component reports whether the store was
mutated. -/
def inMemoryRelease (now : Int) (s : Storage) (l : Lock) :
    Storage × Bool × Except Err Lock :=
  let del := storageDelete s l.name l.id
  if del.2 then
    match setStatus now l LockStatus.Released with
    | Except.ok l' => (del.1, true, Except.ok l')
    | Except.error e => (del.1, true, Except.error e)
  else
    (s, false, Except.error (Err.lockErr l.id
      "The lock was not in the queue anymore"))

/-- `gc` result `{ collectedCount, refreshedCount }`
(`adapter-interface.ts`). -/
structure GarbageCycle where
  collectedCount : Nat
  refreshedCount : Nat
deriving DecidableEq, Repr

/-- Entries whose heartbeat is strictly older than `staleAt` are deleted
from a queue. -/
def collectQueue (staleAt : Int) (q : Queue) : Queue :=
  q.filter (fun e => ¬ (e.2 < staleAt))

/-- Number of entries of a queue that the collect phase deletes. -/
def staleCount (staleAt : Int) (q : Queue) : Nat :=
  (q.filter (fun e => e.2 < staleAt)).length

/-- The collect phase of `InMemoryAdapter.gc` (lines 24-31): every queue
drops its stale entries; the count sums the deletions. -/
def gcCollect (staleAt : Int) (s : Storage) : Storage × Nat :=
  (s.map (fun p => (p.1, collectQueue staleAt p.2)),
   (s.map (fun p => staleCount staleAt p.2)).sum)

/-- `queue.set(lock, at)`: refresh the heartbeat of the lock's entry. -/
def queueRefreshId (atT : Int) (q : Queue) (id : Nat) : Queue :=
  q.map (fun e => if e.1.id = id then (e.1, atT) else e)

/-- One step of the refresh phase (lines 33-38): a lock of the registry is
refreshed when its name has a queue and it is a key of it. -/
def gcRefreshStep (atT : Int) (acc : Storage × Nat) (l : Lock) : Storage × Nat :=
  match storageGet acc.1 l.name with
  | some q =>
      if queueHasId q l.id then
        (storageSetQueue acc.1 l.name (queueRefreshId atT q l.id), acc.2 + 1)
      else acc
  | none => acc

/-- The refresh phase of `InMemoryAdapter.gc`: `lockSet.forEach`. -/
def gcRefresh (atT : Int) (s : Storage) (registry : List Lock) : Storage × Nat :=
  registry.foldl (gcRefreshStep atT) (s, 0)

/-- `InMemoryAdapter.gc` (lines 20-48): collect, then refresh, then throw
`LockerError("The garbage collecting cycle missed N lock(s)")` when the
number of refreshed locks differs from the registry size; the store
mutations performed before the throw persist. -/
def inMemoryGc (registry : List Lock) (atT staleAt : Int) (s : Storage) :
    Storage × Except Err GarbageCycle :=
  let c := gcCollect staleAt s
  let r := gcRefresh atT c.1 registry
  if r.2 ≠ registry.length then
    (r.1, Except.error (Err.lockerErr
      ("The garbage collecting cycle missed " ++
        toString (registry.length - r.2) ++ " lock(s)")))
  else
    (r.1, Except.ok ⟨c.2, r.2⟩)

/-- A document of the MongoDB collection:
`{ name, queue: [{id, type, at}], at }`. -/
structure MDoc where
  name : String
  queue : Queue
  hbAt : Int
deriving DecidableEq, Repr

/-- `updateOne({name}, ...)` touches the first document matching the name. -/
def updateFirstDoc (coll : List MDoc) (n : String) (f : MDoc → MDoc) :
    List MDoc :=
  match coll with
  | [] => []
  | d :: rest =>
      if d.name = n then f d :: rest else d :: updateFirstDoc rest n f

/-- `MongoDBAdapter.dequeueLock` (`mongodb-adapter.ts`, lines 289-305):
`updateOne({name: lock.name}, {$pull: {queue: {id: lock.id}}})`; when
`modifiedCount` is `0` and `ifExists` is false, throw
`LockError(lock, "... was not in the queue anymore")`; the returned boolean
is `modifiedCount === 1`. -/
def mongoDequeue (coll : List MDoc) (l : Lock) (ifExists : Bool) :
    List MDoc × Except Err Bool :=
  let modified : Nat :=
    match coll.find? (fun d => d.name == l.name) with
    | some d => if queueHasId d.queue l.id then 1 else 0
    | none => 0
  let coll' :=
    if modified == 1 then
      updateFirstDoc coll l.name
        (fun d => { d with queue := d.queue.filter (fun e => e.1.id ≠ l.id) })
    else coll
  if modified == 0 && !ifExists then
    (coll', Except.error (Err.lockErr l.id
      "The lock was not in the queue anymore"))
  else
    (coll', Except.ok (modified == 1))

/-- `MongoDBAdapter.release` (lines 362-366): `dequeueLock(lock, false)`
then assign `Released`. -/
def mongoRelease (now : Int) (coll : List MDoc) (l : Lock) :
    List MDoc × Except Err Lock :=
  let dq := mongoDequeue coll l false
  match dq.2 with
  | Except.error e => (dq.1, Except.error e)
  | Except.ok _ =>
      match setStatus now l LockStatus.Released with
      | Except.ok l' => (dq.1, Except.ok l')
      | Except.error e => (dq.1, Except.error e)

/-! ## MongoDB `enqueueLock` retry loop -/

/-- Outcome of one `findOneAndUpdate` round-trip of `enqueueLock`:
it returns the updated document, or returns a null `value`, or the driver
throws a duplicate-key `MongoError` (code 11000), or it throws anything
else. -/
inductive MongoOutcome where
  | success (doc : List Entry)
  | nullValue
  | dupKey
  | failure (msg : String)
deriving DecidableEq, Repr

/-- `MongoDBAdapter.enqueueLock(lock, tries = 3)` (`mongodb-adapter.ts`,
lines 248-287).  `outcomes k` is what the store does on the k-th attempt.
A null `value` raises `LockError("... has not been enqueued")` inside the
`try`, which the `catch` re-wraps; a duplicate-key error with `tries > 1`
recurses with `tries - 1`; any other error (or an exhausted duplicate-key)
becomes `LockError("... has not been enqueued: ...")`.  The second
component counts the attempts performed. -/
def enqueueLock (l : Lock) (outcomes : Nat → MongoOutcome) :
    (idx tries : Nat) → Except Err (List Entry) × Nat
  | idx, tries =>
    match outcomes idx, tries with
    | MongoOutcome.success doc, _ => (Except.ok doc, 1)
    | MongoOutcome.nullValue, _ =>
        (Except.error (Err.lockErr l.id
          "The lock has not been enqueued: The lock has not been enqueued"), 1)
    | MongoOutcome.dupKey, t + 2 =>
        let r := enqueueLock l outcomes (idx + 1) (t + 1)
        (r.1, r.2 + 1)
    | MongoOutcome.dupKey, _ =>
        (Except.error (Err.lockErr l.id
          "The lock has not been enqueued: E11000 duplicate key error"), 1)
    | MongoOutcome.failure msg, _ =>
        (Except.error (Err.lockErr l.id
          ("The lock has not been enqueued: " ++ msg)), 1)

/-! ## The Locker coordinator -/

/-- The gc-interval computation of the `Locker` constructor (`locker.ts`,
lines 56-59):
`adapter.gc && typeof options?.gc === "number" ? Math.max(1, options.gc || 60000) : undefined`.
`options.gc || 60000` yields `60000` exactly when `options.gc` is falsy
(`0`). -/
def gcIntervalOf (adapterHasGc : Bool) (gcOpt : Option Int) : Option Int :=
  if adapterHasGc then
    match gcOpt with
    | some g => some (max 1 (if g = 0 then 60000 else g))
    | none => none
  else none

/-- `Locker.gc` (`locker.ts`, lines 62-81), bound to the in-memory adapter:
when the adapter has a `gc` and `#gcInterval` is truthy, call
`adapter.gc({lockSet, gcInterval, at, staleAt})` with `at = now` and
`staleAt = at - gcInterval * 2`; otherwise do nothing and return
`undefined` (`none`). -/
def lockerGc (gcInterval : Option Int) (registry : List Lock) (now : Int)
    (s : Storage) : Storage × Option (Except Err GarbageCycle) :=
  match gcInterval with
  | some g =>
      if g ≠ 0 then
        let r := inMemoryGc registry now (now - g * 2) s
        (r.1, some r.2)
      else (s, none)
  | none => (s, none)

/-- The per-process Locker state that `release` touches: the bound
in-memory store, the `lockSet` registry, plus observation counters for the
store mutations performed by `adapter.release` and the `ReleasedLock`
events emitted. -/
structure LockerSt where
  storage : Storage
  registry : List Lock
  mutations : Nat
  events : Nat
deriving Repr

/-- `lockSet.has(lock)` — identity membership, by process-unique id. -/
def registryHas (reg : List Lock) (id : Nat) : Bool :=
  reg.any (fun k => k.id == id)

/-- `lockSet.delete(lock)` — drop the (unique) member with this identity. -/
def registryDelete (reg : List Lock) (id : Nat) : List Lock :=
  reg.eraseP (fun k => k.id == id)

/-- `Locker.release` (`locker.ts`, lines 137-159) over the in-memory
adapter: return immediately when the status is `Releasing` or the lock is
not in the registry; when the status is `Released`, only drop it from the
registry; otherwise assign `Releasing`, call `adapter.release`, count a
`ReleasedLock` event on success (`lock.isReleased()`), and drop the lock
from the registry in the `finally` even when the adapter threw.  The result
carries the new state, the lock as the caller now sees it, and the error
propagated to the caller, if any. -/
def lockerRelease (now : Int) (st : LockerSt) (l : Lock) :
    LockerSt × Lock × Option Err :=
  if l.status = LockStatus.Releasing ∨ ¬ registryHas st.registry l.id then
    (st, l, none)
  else if l.status = LockStatus.Released then
    ({ st with registry := registryDelete st.registry l.id }, l, none)
  else
    match setStatus now l LockStatus.Releasing with
    | Except.error e => (st, l, some e)
    | Except.ok l1 =>
        let r := inMemoryRelease now st.storage l1
        let muts := st.mutations + (if r.2.1 then 1 else 0)
        match r.2.2 with
        | Except.ok l2 =>
            ({ storage := r.1,
               registry := registryDelete st.registry l.id,
               mutations := muts,
               events := st.events +
                 (if l2.status = LockStatus.Released then 1 else 0) },
             l2, none)
        | Except.error e =>
            ({ storage := r.1,
               registry := registryDelete st.registry l.id,
               mutations := muts,
               events := st.events },
             l1, some e)

/-! ## Helper lemmas -/

/-- Behaviour of the `acquireTimeout` getter, by cases on the option. -/
theorem acquireTimeoutGet_spec (l : Lock) :
    ((∃ v, l.optAcquireTimeout = some v ∧ v ≤ 0) ↔
      ∃ m, l.acquireTimeoutGet = Except.error (Err.lockErr l.id m)) ∧
    (∀ v, l.optAcquireTimeout = some v → 0 < v →
      l.acquireTimeoutGet = Except.ok (some v)) ∧
    (l.optAcquireTimeout = none → l.acquireTimeoutGet = Except.ok none) := by
  rcases h : l.optAcquireTimeout with _ | v
  · simp [Lock.acquireTimeoutGet, h]
  · by_cases hv : v ≤ 0
    · simp only [Lock.acquireTimeoutGet, h, if_pos hv]
      refine ⟨⟨fun _ => ⟨_, rfl⟩, fun _ => ⟨v, rfl, hv⟩⟩, ?_, by simp⟩
      intro w hw hpos
      cases hw
      omega
    · simp only [Lock.acquireTimeoutGet, h, if_neg hv]
      refine ⟨⟨?_, by simp⟩, ?_, by simp⟩
      · rintro ⟨w, hw, hw0⟩
        cases hw
        omega
      · intro w hw _
        cases hw
        rfl

/-- Behaviour of the `pullInterval` getter, by cases on the option. -/
theorem pullIntervalGet_spec (l : Lock) :
    ((∃ v, l.optPullInterval = some v ∧ v ≤ 0) ↔
      ∃ m, l.pullIntervalGet = Except.error (Err.lockErr l.id m)) ∧
    (∀ v, l.optPullInterval = some v → 0 < v →
      l.pullIntervalGet = Except.ok v) ∧
    (l.optPullInterval = none → l.pullIntervalGet = Except.ok 25) := by
  rcases h : l.optPullInterval with _ | v
  · simp [Lock.pullIntervalGet, h]
  · by_cases hv : v ≤ 0
    · simp only [Lock.pullIntervalGet, h, if_pos hv]
      refine ⟨⟨fun _ => ⟨_, rfl⟩, fun _ => ⟨v, rfl, hv⟩⟩, ?_, by simp⟩
      intro w hw hpos
      cases hw
      omega
    · simp only [Lock.pullIntervalGet, h, if_neg hv]
      refine ⟨⟨?_, by simp⟩, ?_, by simp⟩
      · rintro ⟨w, hw, hw0⟩
        cases hw
        omega
      · intro w hw _
        cases hw
        rfl

/-! ## C9 -/

/-- C9: for every Lock, reading the `acquireTimeout` getter throws a
`LockError` when the option is set and non-positive, returns the value
when set and positive, and `undefined` when unset; the `pullInterval`
getter does the same with default `25` when unset. -/
theorem C9_option_getters (l : Lock) :
    ((∃ v, l.optAcquireTimeout = some v ∧ v ≤ 0) ↔
      ∃ m, l.acquireTimeoutGet = Except.error (Err.lockErr l.id m)) ∧
    (∀ v, l.optAcquireTimeout = some v → 0 < v →
      l.acquireTimeoutGet = Except.ok (some v)) ∧
    (l.optAcquireTimeout = none → l.acquireTimeoutGet = Except.ok none) ∧
    ((∃ v, l.optPullInterval = some v ∧ v ≤ 0) ↔
      ∃ m, l.pullIntervalGet = Except.error (Err.lockErr l.id m)) ∧
    (∀ v, l.optPullInterval = some v → 0 < v →
      l.pullIntervalGet = Except.ok v) ∧
    (l.optPullInterval = none → l.pullIntervalGet = Except.ok 25) := by
  obtain ⟨a1, a2, a3⟩ := acquireTimeoutGet_spec l
  obtain ⟨b1, b2, b3⟩ := pullIntervalGet_spec l
  exact ⟨a1, a2, a3, b1, b2, b3⟩

/-- C9 witness: a lock with `acquireTimeout = 10` and `pullInterval`
unset. -/
theorem C9_option_getters_witness :
    (Lock.init 1 LockType.Reader 0 (some 10) none).acquireTimeoutGet =
      Except.ok (some 10) ∧
    (Lock.init 1 LockType.Reader 0 (some 10) none).pullIntervalGet =
      Except.ok 25 :=
  ⟨(C9_option_getters _).2.1 10 rfl (by decide),
   (C9_option_getters _).2.2.2.2.2 rfl⟩

/-! ## C7 -/

/-- C7 counterexample: with an adapter that supports gc and the option
`gc: 0` — which is set but not `> 0` — the constructor still enables GC
(with the 60000 default), refuting "enabled iff the gc option is set with
a value > 0". -/
theorem C7_counterexample :
    (gcIntervalOf true (some 0)).isSome = true ∧ ¬ ((0 : Int) > 0) := by
  decide

/-- C7 amended: GC is enabled iff the adapter supports gc and the `gc`
option is set to a number — any number, not only positive ones; the
interval used is `max 1 (gc || 60000)`, i.e. `60000` when the caller opts
in with the falsy `0` and `max 1 gc` otherwise.  Enabled intervals are
always `≥ 1`, and when GC is not enabled `locker.gc()` does nothing and
returns `undefined`. -/
theorem C7_gc_enablement (hasGc : Bool) (gcOpt : Option Int)
    (registry : List Lock) (now : Int) (s : Storage) :
    ((gcIntervalOf hasGc gcOpt).isSome = true ↔
      (hasGc = true ∧ gcOpt.isSome = true)) ∧
    (∀ g, gcOpt = some g → hasGc = true →
      gcIntervalOf hasGc gcOpt = some (max 1 (if g = 0 then 60000 else g))) ∧
    (∀ g ∈ gcIntervalOf hasGc gcOpt, 1 ≤ g) ∧
    (gcIntervalOf hasGc gcOpt = none →
      lockerGc (gcIntervalOf hasGc gcOpt) registry now s = (s, none)) := by
  cases hasGc <;> rcases gcOpt with _ | g <;>
    simp [gcIntervalOf, lockerGc]

/-- C7 witness: adapter with gc and `gc: 5` gives the interval
`max 1 5 = 5`. -/
theorem C7_gc_enablement_witness :
    gcIntervalOf true (some 5) =
      some (max 1 (if (5 : Int) = 0 then 60000 else 5)) :=
  (C7_gc_enablement true (some 5) [] 0 []).2.1 5 rfl rfl

/-! ## C2 -/

/-- The edge list named by the claim: the exact pairs
(current, target) on which a status assignment succeeds. -/
def claimedEdges : List (LockStatus × LockStatus) :=
  [(LockStatus.Acquiring, LockStatus.Acquired),
   (LockStatus.Acquiring, LockStatus.Rejected),
   (LockStatus.Acquired, LockStatus.Releasing),
   (LockStatus.Acquired, LockStatus.Released),
   (LockStatus.Releasing, LockStatus.Released)]

/-- The setter guard coincides with the claimed edge list. -/
theorem mem_claimedEdges_iff (c t : LockStatus) :
    (c, t) ∈ claimedEdges ↔ statusEdgeOk c t = true := by
  cases c <;> cases t <;> decide

/-- A successful status assignment yields a lock carrying the target
status. -/
theorem setStatus_ok_status (now : Int) (l : Lock) (tgt : LockStatus)
    (l' : Lock) (h : setStatus now l tgt = Except.ok l') : l'.status = tgt := by
  unfold setStatus at h
  split at h
  · cases h
  · split at h
    · cases h
      rfl
    · split at h
      · split at h
        · cases h
        · cases h
          rfl
      · cases h
        rfl

/-- C2: on a Lock whose `settledAt` is populated whenever its status is
`Acquired` or `Releasing` (true of every lock the workflow can produce),
assigning a status succeeds exactly on the edges Acquiring→Acquired,
Acquiring→Rejected, Acquired→Releasing, Acquired→Released,
Releasing→Released; any other (current, target) pair throws a
`WorkflowLockError` naming the refused target — and, the assignment having
thrown, the status is left unchanged. -/
theorem C2_state_machine (now : Int) (l : Lock) (target : LockStatus)
    (hInv : (l.status = LockStatus.Acquired ∨ l.status = LockStatus.Releasing) →
      l.settledAt.isSome = true) :
    ((l.status, target) ∈ claimedEdges →
      ∃ l', setStatus now l target = Except.ok l' ∧ l'.status = target) ∧
    ((l.status, target) ∉ claimedEdges →
      setStatus now l target = Except.error (Err.workflow l.id target)) := by
  constructor
  · intro hmem
    have hok := (mem_claimedEdges_iff _ _).1 hmem
    have hex : ∃ l', setStatus now l target = Except.ok l' := by
      rcases hst : l.status <;> rcases htgt : target <;> rw [hst, htgt] at hok <;>
        first
          | exact absurd hok (by decide)
          | (simp [setStatus, hst, statusEdgeOk]; done)
          | (obtain ⟨x, hx⟩ := Option.isSome_iff_exists.1 (hInv (by simp [hst]));
             simp [setStatus, hst, statusEdgeOk, hx])
    obtain ⟨l', hl'⟩ := hex
    exact ⟨l', hl', setStatus_ok_status now l target l' hl'⟩
  · intro hmem
    have hko : statusEdgeOk l.status target = false := by
      rcases h : statusEdgeOk l.status target
      · rfl
      · exact absurd ((mem_claimedEdges_iff _ _).2 h) hmem
    simp [setStatus, hko]

/-- C2 witness: the fresh-lock edge Acquiring→Acquired succeeds, and the
refused Acquiring→Released throws naming the target. -/
theorem C2_state_machine_witness :
    (∃ l', setStatus 3 (Lock.init 7 LockType.Reader 1) LockStatus.Acquired =
      Except.ok l' ∧ l'.status = LockStatus.Acquired) ∧
    setStatus 3 (Lock.init 7 LockType.Reader 1) LockStatus.Released =
      Except.error (Err.workflow 7 LockStatus.Released) :=
  ⟨(C2_state_machine 3 (Lock.init 7 LockType.Reader 1) LockStatus.Acquired
      (by decide)).1 (by decide),
   (C2_state_machine 3 (Lock.init 7 LockType.Reader 1) LockStatus.Released
      (by decide)).2 (by decide)⟩

/-! ## C8 -/

/-- C8: `enqueueLock` starting with `tries = 3` performs at most three
store attempts; a first-attempt success returns the document at once; each
duplicate-key error is retried (up to two additional attempts); three
duplicate-key errors in a row, a null returned value, or any other
failure surface as a `LockError` attached to the lock. -/
theorem C8_enqueue_retry (l : Lock) (outcomes : Nat → MongoOutcome) :
    (enqueueLock l outcomes 0 3).2 ≤ 3 ∧
    (∀ doc, outcomes 0 = MongoOutcome.success doc →
      enqueueLock l outcomes 0 3 = (Except.ok doc, 1)) ∧
    (outcomes 0 = MongoOutcome.dupKey →
      ∀ doc, outcomes 1 = MongoOutcome.success doc →
        enqueueLock l outcomes 0 3 = (Except.ok doc, 2)) ∧
    (outcomes 0 = MongoOutcome.dupKey → outcomes 1 = MongoOutcome.dupKey →
      ∀ doc, outcomes 2 = MongoOutcome.success doc →
        enqueueLock l outcomes 0 3 = (Except.ok doc, 3)) ∧
    (outcomes 0 = MongoOutcome.dupKey → outcomes 1 = MongoOutcome.dupKey →
      outcomes 2 = MongoOutcome.dupKey →
        ∃ m, enqueueLock l outcomes 0 3 = (Except.error (Err.lockErr l.id m), 3)) ∧
    (∀ i, i < 3 → (∀ j, j < i → outcomes j = MongoOutcome.dupKey) →
      (∀ m, outcomes i = MongoOutcome.failure m →
        ∃ m', enqueueLock l outcomes 0 3 =
          (Except.error (Err.lockErr l.id m'), i + 1)) ∧
      (outcomes i = MongoOutcome.nullValue →
        ∃ m', enqueueLock l outcomes 0 3 =
          (Except.error (Err.lockErr l.id m'), i + 1))) := by
  refine ⟨?_, ?_, ?_, ?_, ?_, ?_⟩
  · rcases h0 : outcomes 0 <;> simp [enqueueLock, h0] <;>
      rcases h1 : outcomes 1 <;> simp [enqueueLock, h1] <;>
      rcases h2 : outcomes 2 <;> simp [enqueueLock, h2]
  · intro doc h0
    simp [enqueueLock, h0]
  · intro h0 doc h1
    simp [enqueueLock, h0, h1]
  · intro h0 h1 doc h2
    simp [enqueueLock, h0, h1, h2]
  · intro h0 h1 h2
    exact ⟨"The lock has not been enqueued: E11000 duplicate key error",
      by simp [enqueueLock, h0, h1, h2]⟩
  · intro i hi hdup
    interval_cases i
    · exact ⟨fun m h0 => ⟨"The lock has not been enqueued: " ++ m,
          by simp [enqueueLock, h0]⟩,
        fun h0 => ⟨"The lock has not been enqueued: The lock has not been enqueued",
          by simp [enqueueLock, h0]⟩⟩
    · have h0 := hdup 0 (by omega)
      exact ⟨fun m h1 => ⟨"The lock has not been enqueued: " ++ m,
          by simp [enqueueLock, h0, h1]⟩,
        fun h1 => ⟨"The lock has not been enqueued: The lock has not been enqueued",
          by simp [enqueueLock, h0, h1]⟩⟩
    · have h0 := hdup 0 (by omega)
      have h1 := hdup 1 (by omega)
      exact ⟨fun m h2 => ⟨"The lock has not been enqueued: " ++ m,
          by simp [enqueueLock, h0, h1, h2]⟩,
        fun h2 => ⟨"The lock has not been enqueued: The lock has not been enqueued",
          by simp [enqueueLock, h0, h1, h2]⟩⟩

/-- C8 witness: two duplicate-key errors then a success acquire the
document on the third and last attempt. -/
theorem C8_enqueue_retry_witness :
    enqueueLock (Lock.init 3 LockType.Writer 0)
      (fun k => if k < 2 then MongoOutcome.dupKey
                else MongoOutcome.success [⟨3, LockType.Writer⟩]) 0 3 =
      (Except.ok [⟨3, LockType.Writer⟩], 3) :=
  (C8_enqueue_retry (Lock.init 3 LockType.Writer 0) _).2.2.2.1
    (by simp) (by simp) [⟨3, LockType.Writer⟩] (by simp)

/-! ## C1 -/

/-- `indexOf` returns `0` exactly when the sought element heads the
list. -/
theorem jsIndexOf_eq_zero (q : List Entry) (e : Entry) :
    jsIndexOf q e = 0 ↔ q.head? = some e := by
  cases q with
  | nil => simp [jsIndexOf]
  | cons x rest =>
      by_cases hx : x = e
      · subst hx
        simp [jsIndexOf]
      · simp only [jsIndexOf, if_neg hx, List.head?_cons]
        constructor
        · intro h
          by_cases hr : jsIndexOf rest e = -1
          · rw [if_pos hr] at h
            omega
          · rw [if_neg hr] at h
            omega
        · intro h
          injection h with h'
          exact absurd h' hx

/-- The lock as the state machine returns it from a successful
Acquiring→Acquired assignment. -/
def acquiredOf (now : Int) (l : Lock) : Lock :=
  { l with
    status := LockStatus.Acquired
    settledAt := some now
    settledIn := some (now - l.createdAt) }

/-- C1: for a queue with pairwise-distinct entry ids containing the lock's
entry, the in-memory scan and the MongoDB `isLockAcquired` admit the lock
in exactly the spec's cases — a Writer iff its entry heads the queue, a
Reader iff no Writer (and no other occurrence of itself) precedes its
entry — and, under either check, an admitted lock in status `Acquiring`
has its status assigned `Acquired` while a non-admitted one is left
untouched. -/
theorem C1_admission (l : Lock) (q : List Entry)
    (hmem : l.entry ∈ q) (hnodup : (q.map Entry.id).Nodup) :
    (inMemoryAdmitted l q = true ↔ specAdmitted l q) ∧
    (mongoAdmitted l q = true ↔ specAdmitted l q) ∧
    (∀ now, l.status = LockStatus.Acquiring →
      (inMemoryAdmitted l q = true →
        ∃ l', inMemoryScan now l q = Except.ok l' ∧
          l'.status = LockStatus.Acquired) ∧
      (inMemoryAdmitted l q = false → inMemoryScan now l q = Except.ok l) ∧
      (mongoAdmitted l q = true →
        ∃ l', mongoIsLockAcquired now l (some q) = Except.ok (true, l') ∧
          l'.status = LockStatus.Acquired) ∧
      (mongoAdmitted l q = false →
        mongoIsLockAcquired now l (some q) = Except.ok (false, l))) := by
  have inj : ∀ x ∈ q, ∀ y ∈ q, Entry.id x = Entry.id y → x = y :=
    fun x hx y hy h => List.inj_on_of_nodup_map hnodup hx hy h
  have side : ∀ now, l.status = LockStatus.Acquiring →
      (inMemoryAdmitted l q = true →
        ∃ l', inMemoryScan now l q = Except.ok l' ∧
          l'.status = LockStatus.Acquired) ∧
      (inMemoryAdmitted l q = false → inMemoryScan now l q = Except.ok l) ∧
      (mongoAdmitted l q = true →
        ∃ l', mongoIsLockAcquired now l (some q) = Except.ok (true, l') ∧
          l'.status = LockStatus.Acquired) ∧
      (mongoAdmitted l q = false →
        mongoIsLockAcquired now l (some q) = Except.ok (false, l)) := by
    intro now hstatus
    refine ⟨?_, ?_, ?_, ?_⟩
    · intro hadm
      exact ⟨acquiredOf now l,
        by simp [inMemoryScan, hadm, setStatus, hstatus, statusEdgeOk,
          acquiredOf], rfl⟩
    · intro hadm
      simp [inMemoryScan, hadm]
    · intro hadm
      exact ⟨acquiredOf now l,
        by simp [mongoIsLockAcquired, hadm, setStatus, hstatus, statusEdgeOk,
          acquiredOf], rfl⟩
    · intro hadm
      simp [mongoIsLockAcquired, hadm]
  rcases hty : l.type with _ | _
  · -- Writer
    have hspec : specAdmitted l q ↔ q.head? = some l.entry := by
      simp [specAdmitted, hty]
    have him : inMemoryAdmitted l q = true ↔ q.head? = some l.entry := by
      unfold inMemoryAdmitted
      rw [if_pos hty, beq_iff_eq]
      exact jsIndexOf_eq_zero q l.entry
    have hmg : mongoAdmitted l q = true ↔ q.head? = some l.entry := by
      unfold mongoAdmitted
      rw [if_pos hty]
      cases q with
      | nil => cases hmem
      | cons x rest =>
          simp only [List.head?_cons, Option.map_some', beq_iff_eq,
            Option.some.injEq]
          constructor
          · intro h
            exact inj x (by simp) l.entry hmem h
          · intro h
            rw [h]
            rfl
    exact ⟨him.trans hspec.symm, hmg.trans hspec.symm, side⟩
  · -- Reader
    have hne : ¬ l.type = LockType.Writer := by rw [hty]; simp
    have him : inMemoryAdmitted l q = true ↔ specAdmitted l q := by
      unfold inMemoryAdmitted specAdmitted
      rw [if_neg hne, if_neg hne, beq_iff_eq, List.find?_eq_some]
      constructor
      · rintro ⟨hp, pre, post, hsplit, hpre⟩
        refine ⟨pre, post, hsplit, fun e he => ?_⟩
        have hnp := hpre e he
        simp only [Bool.not_eq_eq_eq_not, Bool.not_true, Bool.or_eq_false_iff,
          beq_eq_false_iff_ne, ne_eq] at hnp
        refine ⟨fun hid => hnp.1 ?_, hnp.2⟩
        exact inj e (by rw [hsplit]; exact List.mem_append_left _ he)
          l.entry hmem hid
      · rintro ⟨pre, post, hsplit, hpre⟩
        refine ⟨by simp, pre, post, hsplit, fun e he => ?_⟩
        have h := hpre e he
        simp only [Bool.not_eq_eq_eq_not, Bool.not_true, Bool.or_eq_false_iff,
          beq_eq_false_iff_ne, ne_eq]
        exact ⟨fun heq => h.1 (by rw [heq]; rfl), h.2⟩
    have hmg : mongoAdmitted l q = true ↔ specAdmitted l q := by
      unfold mongoAdmitted specAdmitted
      rw [if_neg hne, if_neg hne]
      constructor
      · intro h
        obtain ⟨e0, he0, hid⟩ : ∃ e0,
            q.find? (fun e => e.id == l.id || e.type == LockType.Writer) =
              some e0 ∧ e0.id = l.id := by
          rcases hf : q.find? (fun e => e.id == l.id ||
              e.type == LockType.Writer) with _ | e0
          · rw [hf] at h
            simp at h
          · rw [hf] at h
            simp only [Option.map_some', beq_iff_eq, Option.some.injEq] at h
            exact ⟨e0, hf, h⟩
        rw [List.find?_eq_some] at he0
        obtain ⟨hp, pre, post, hsplit, hpre⟩ := he0
        have he0l : e0 = l.entry :=
          inj e0 (by rw [hsplit]; exact List.mem_append_right _ (by simp))
            l.entry hmem hid
        refine ⟨pre, post, by rw [← he0l]; exact hsplit, fun e he => ?_⟩
        have hnp := hpre e he
        simp only [Bool.not_eq_eq_eq_not, Bool.not_true, Bool.or_eq_false_iff,
          beq_eq_false_iff_ne, ne_eq] at hnp
        exact hnp
      · rintro ⟨pre, post, hsplit, hpre⟩
        have hfind : q.find? (fun e => e.id == l.id ||
            e.type == LockType.Writer) = some l.entry := by
          rw [List.find?_eq_some]
          refine ⟨by simp [Lock.entry], pre, post, hsplit, fun e he => ?_⟩
          have h := hpre e he
          simp only [Bool.not_eq_eq_eq_not, Bool.not_true, Bool.or_eq_false_iff,
            beq_eq_false_iff_ne, ne_eq]
          exact h
        rw [hfind]
        simp [Lock.entry]
    exact ⟨him, hmg, side⟩

theorem C1_admission_witness :
    inMemoryAdmitted (Lock.init 4 LockType.Reader 0)
      [⟨9, LockType.Reader⟩, ⟨4, LockType.Reader⟩] = true ∧
    mongoAdmitted (Lock.init 4 LockType.Reader 0)
      [⟨9, LockType.Reader⟩, ⟨4, LockType.Reader⟩] = true := by
  have h := C1_admission (Lock.init 4 LockType.Reader 0)
    [⟨9, LockType.Reader⟩, ⟨4, LockType.Reader⟩] (by decide) (by decide)
  exact ⟨h.1.2 ⟨[⟨9, LockType.Reader⟩], [], rfl, by decide⟩,
    h.2.1.2 ⟨[⟨9, LockType.Reader⟩], [], rfl, by decide⟩⟩

/-! ## C5 -/

/-- After deleting the (unique) key with a given id, no entry with that id
remains. -/
theorem queueHasId_deleteId (q : Queue) (id : Nat)
    (h : (q.map (fun e => e.1.id)).Nodup) :
    queueHasId (queueDeleteId q id) id = false := by
  induction q with
  | nil => rfl
  | cons e rest ih =>
      simp only [List.map_cons, List.nodup_cons] at h
      by_cases he : e.1.id = id
      · have : queueDeleteId (e :: rest) id = rest := by
          simp [queueDeleteId, List.eraseP_cons, he]
        rw [this]
        subst he
        simp only [queueHasId, List.any_eq_false, beq_iff_eq]
        intro x hx hid
        exact h.1 (by rw [← hid]; exact List.mem_map_of_mem _ hx)
      · have : queueDeleteId (e :: rest) id = e :: queueDeleteId rest id := by
          simp [queueDeleteId, List.eraseP_cons, he]
        rw [this]
        simp only [queueHasId, List.any_cons, Bool.or_eq_false_iff,
          beq_eq_false_iff_ne, ne_eq]
        exact ⟨he, ih h.2⟩

/-- A `$pull` by id leaves no entry with that id. -/
theorem queueHasId_filter (q : Queue) (id : Nat) :
    queueHasId (q.filter (fun e => e.1.id ≠ id)) id = false := by
  rw [queueHasId, List.any_eq_false]
  intro x hx
  rw [List.mem_filter] at hx
  simp only [ne_eq, decide_eq_true_eq] at hx
  simpa using hx.2

/-- The lock as the state machine returns it from a successful
assignment to `Released` (from `settledAt = some sAt`). -/
def releasedOf (now sAt : Int) (l : Lock) : Lock :=
  { l with
    status := LockStatus.Released
    releasedAt := some now
    acquiredFor := some (now - sAt) }

/-- C5: for a settled lock being released, both the in-memory `release`
and the MongoDB `release` (via `dequeueLock` with `ifExists = false`)
remove the lock's entry from the store and assign the status `Released`;
when the entry is no longer present they throw the
`LockError` "was not in the queue anymore" and leave the store — and the
lock's status — untouched. -/
theorem C5_adapter_release (now : Int) (s : Storage) (coll : List MDoc)
    (l : Lock) (hstatus : l.status = LockStatus.Releasing)
    (hsettled : l.settledAt.isSome = true) :
    (∀ q, storageGet s l.name = some q → queueHasId q l.id = true →
      ∃ l', inMemoryRelease now s l =
        (storageSetQueue s l.name (queueDeleteId q l.id), true,
          Except.ok l') ∧
        l'.status = LockStatus.Released ∧
        ((q.map (fun e => e.1.id)).Nodup →
          queueHasId (queueDeleteId q l.id) l.id = false)) ∧
    ((storageDelete s l.name l.id).2 = false →
      inMemoryRelease now s l = (s, false,
        Except.error (Err.lockErr l.id
          "The lock was not in the queue anymore"))) ∧
    (∀ d, coll.find? (fun d0 => d0.name == l.name) = some d →
      queueHasId d.queue l.id = true →
      ∃ l', mongoRelease now coll l =
        (updateFirstDoc coll l.name (fun d0 =>
          { d0 with queue := d0.queue.filter (fun e => e.1.id ≠ l.id) }),
         Except.ok l') ∧
        l'.status = LockStatus.Released ∧
        queueHasId (d.queue.filter (fun e => e.1.id ≠ l.id)) l.id = false) ∧
    ((∀ d ∈ coll, d.name = l.name → queueHasId d.queue l.id = false) →
      mongoRelease now coll l = (coll,
        Except.error (Err.lockErr l.id
          "The lock was not in the queue anymore"))) := by
  obtain ⟨x, hx⟩ := Option.isSome_iff_exists.1 hsettled
  refine ⟨?_, ?_, ?_, ?_⟩
  · intro q hq hhas
    have hdel : storageDelete s l.name l.id =
        (storageSetQueue s l.name (queueDeleteId q l.id), true) := by
      unfold storageDelete
      rw [hq]
      simp [hhas]
    refine ⟨releasedOf now x l, ?_, rfl,
      fun hnd => queueHasId_deleteId q l.id hnd⟩
    simp [inMemoryRelease, hdel, setStatus, statusEdgeOk, hstatus, hx,
      releasedOf]
  · intro h2
    simp [inMemoryRelease, h2]
  · intro d hd hhas
    refine ⟨releasedOf now x l, ?_, rfl,
      queueHasId_filter d.queue l.id⟩
    simp [mongoRelease, mongoDequeue, hd, hhas, setStatus, statusEdgeOk,
      hstatus, hx, releasedOf]
  · intro hall
    rcases hf : coll.find? (fun d0 => d0.name == l.name) with _ | d
    · simp [mongoRelease, mongoDequeue, hf]
    · have hdmem := List.mem_of_find?_eq_some hf
      have hdname : d.name = l.name := by
        have := List.find?_some hf
        simpa using this
      have hzero := hall d hdmem hdname
      simp [mongoRelease, mongoDequeue, hf, hzero]

/-- A concrete settled, releasing Writer lock for the C5 witness. -/
def c5lock : Lock :=
  { id := 1
    name := "a"
    type := LockType.Writer
    status := LockStatus.Releasing
    createdAt := 0
    settledAt := some 1 }

/-- C5 witness: in store `a ↦ [(entry 1, hb 0)]` the release removes the
entry and yields a `Released` lock. -/
theorem C5_adapter_release_witness :
    ∃ l', inMemoryRelease 5 [("a", [(⟨1, LockType.Writer⟩, 0)])] c5lock =
      (storageSetQueue [("a", [(⟨1, LockType.Writer⟩, 0)])] "a"
        (queueDeleteId [(⟨1, LockType.Writer⟩, 0)] 1), true,
        Except.ok l') ∧
      l'.status = LockStatus.Released ∧
      (([((⟨1, LockType.Writer⟩ : Entry), (0 : Int))].map
          (fun e => e.1.id)).Nodup →
        queueHasId (queueDeleteId [(⟨1, LockType.Writer⟩, 0)] 1) 1 = false) :=
  (C5_adapter_release 5 [("a", [(⟨1, LockType.Writer⟩, 0)])] [] c5lock
    rfl rfl).1 [(⟨1, LockType.Writer⟩, 0)] rfl rfl

/-! ## C4 -/

/-- C4: releasing an acquired, registered lock whose entry is in the store
performs exactly one store mutation and one `ReleasedLock` event, and a
second `release` of the same lock is a complete no-op; moreover `release`
returns immediately when the status is `Releasing` or the lock is not in
the registry, only drops the registry entry when the status is `Released`,
and when the adapter throws (entry gone) it still removes the lock from
the registry, emits nothing, and mutates nothing. -/
theorem C4_release_idempotent (now1 now2 : Int) (st : LockerSt) (l : Lock)
    (hst : l.status = LockStatus.Acquired)
    (hsettled : l.settledAt.isSome = true)
    (hreg : registryHas st.registry l.id = true)
    (hpres : (storageDelete st.storage l.name l.id).2 = true)
    (hod : registryHas (registryDelete st.registry l.id) l.id = false) :
    ((lockerRelease now1 st l).2.2 = none ∧
     ((lockerRelease now1 st l).2.1).status = LockStatus.Released ∧
     (lockerRelease now1 st l).1.mutations = st.mutations + 1 ∧
     (lockerRelease now1 st l).1.events = st.events + 1 ∧
     registryHas (lockerRelease now1 st l).1.registry l.id = false ∧
     lockerRelease now2 (lockerRelease now1 st l).1
         ((lockerRelease now1 st l).2.1) =
       ((lockerRelease now1 st l).1, (lockerRelease now1 st l).2.1, none)) ∧
    (∀ st' l', l'.status = LockStatus.Releasing ∨
        registryHas st'.registry l'.id = false →
      lockerRelease now2 st' l' = (st', l', none)) ∧
    (∀ st' l', l'.status = LockStatus.Released →
        registryHas st'.registry l'.id = true →
      lockerRelease now2 st' l' =
        ({ st' with registry := registryDelete st'.registry l'.id },
         l', none)) ∧
    (∀ st' l', l'.status = LockStatus.Acquired →
        registryHas st'.registry l'.id = true →
        (storageDelete st'.storage l'.name l'.id).2 = false →
      lockerRelease now2 st' l' =
        ({ st' with registry := registryDelete st'.registry l'.id },
         { l' with status := LockStatus.Releasing },
         some (Err.lockErr l'.id
           "The lock was not in the queue anymore"))) := by
  obtain ⟨x, hx⟩ := Option.isSome_iff_exists.1 hsettled
  have step1 : lockerRelease now1 st l =
      ({ storage := (storageDelete st.storage l.name l.id).1
         registry := registryDelete st.registry l.id
         mutations := st.mutations + 1
         events := st.events + 1 },
       releasedOf now1 x { l with status := LockStatus.Releasing }, none) := by
    simp [lockerRelease, hst, hreg, setStatus, statusEdgeOk,
      inMemoryRelease, hpres, hx, releasedOf]
  refine ⟨?_, ?_, ?_, ?_⟩
  · rw [step1]
    refine ⟨rfl, rfl, rfl, rfl, hod, ?_⟩
    simp [lockerRelease, releasedOf, hod]
  · rintro st' l' (h | h)
    · simp [lockerRelease, h]
    · simp [lockerRelease, h]
  · intro st' l' h1 h2
    simp [lockerRelease, h1, h2]
  · intro st' l' h1 h2 h3
    simp [lockerRelease, h1, h2, h3, setStatus, statusEdgeOk,
      inMemoryRelease]

/-- A concrete acquired, settled, registered Writer lock for the C4
witness. -/
def c4lock : Lock :=
  { id := 1
    name := "a"
    type := LockType.Writer
    status := LockStatus.Acquired
    createdAt := 0
    settledAt := some 1 }

/-- C4 witness: with the store `a ↦ [(entry 1, hb 0)]` and registry
`[c4lock]`, the first release performs one mutation and one event and the
second is a no-op. -/
theorem C4_release_idempotent_witness :
    ((lockerRelease 5 ⟨[("a", [(⟨1, LockType.Writer⟩, 0)])], [c4lock], 0, 0⟩
        c4lock).2.2 = none ∧
     ((lockerRelease 5 ⟨[("a", [(⟨1, LockType.Writer⟩, 0)])], [c4lock], 0, 0⟩
        c4lock).2.1).status = LockStatus.Released ∧
     (lockerRelease 5 ⟨[("a", [(⟨1, LockType.Writer⟩, 0)])], [c4lock], 0, 0⟩
        c4lock).1.mutations = 0 + 1 ∧
     (lockerRelease 5 ⟨[("a", [(⟨1, LockType.Writer⟩, 0)])], [c4lock], 0, 0⟩
        c4lock).1.events = 0 + 1 ∧
     registryHas (lockerRelease 5
        ⟨[("a", [(⟨1, LockType.Writer⟩, 0)])], [c4lock], 0, 0⟩
        c4lock).1.registry c4lock.id = false ∧
     lockerRelease 7 (lockerRelease 5
         ⟨[("a", [(⟨1, LockType.Writer⟩, 0)])], [c4lock], 0, 0⟩ c4lock).1
       ((lockerRelease 5 ⟨[("a", [(⟨1, LockType.Writer⟩, 0)])], [c4lock],
          0, 0⟩ c4lock).2.1) =
       ((lockerRelease 5 ⟨[("a", [(⟨1, LockType.Writer⟩, 0)])], [c4lock],
          0, 0⟩ c4lock).1,
        (lockerRelease 5 ⟨[("a", [(⟨1, LockType.Writer⟩, 0)])], [c4lock],
          0, 0⟩ c4lock).2.1, none)) :=
  (C4_release_idempotent 5 7
    ⟨[("a", [(⟨1, LockType.Writer⟩, 0)])], [c4lock], 0, 0⟩ c4lock
    rfl rfl rfl rfl rfl).1

/-! ## C3 -/

/-- The timestamp/settlement invariant of the claim: `settledAt` present
iff settled-or-later, `releasedAt` present iff `Released` (and then
`settledAt` present), and `createdAt ≤ settledAt ≤ releasedAt` whenever
defined. -/
def LockInv (l : Lock) : Prop :=
  (l.settledAt.isSome = true ↔
    l.status ∈ [LockStatus.Acquired, LockStatus.Rejected,
      LockStatus.Releasing, LockStatus.Released]) ∧
  (l.releasedAt.isSome = true ↔ l.status = LockStatus.Released) ∧
  (l.releasedAt.isSome = true → l.settledAt.isSome = true) ∧
  (∀ x ∈ l.settledAt, l.createdAt ≤ x) ∧
  (∀ x ∈ l.settledAt, ∀ y ∈ l.releasedAt, x ≤ y)

/-- All timestamps already carried by the lock are at most `t`. -/
def timesLe (l : Lock) (t : Int) : Prop :=
  l.createdAt ≤ t ∧ (∀ x ∈ l.settledAt, x ≤ t) ∧ (∀ y ∈ l.releasedAt, y ≤ t)

/-- An edge into `Acquired` or `Rejected` comes from `Acquiring`. -/
theorem edge_src_settling (c t : LockStatus)
    (h : statusEdgeOk c t = true)
    (ht : t = LockStatus.Acquired ∨ t = LockStatus.Rejected) :
    c = LockStatus.Acquiring := by
  rcases ht with ht | ht <;> subst ht <;> cases c <;> simp_all [statusEdgeOk]

/-- An edge into `Releasing` comes from `Acquired`. -/
theorem edge_src_releasing (c : LockStatus)
    (h : statusEdgeOk c LockStatus.Releasing = true) :
    c = LockStatus.Acquired := by
  cases c <;> simp_all [statusEdgeOk]

/-- An edge into `Released` comes from `Acquired` or `Releasing`. -/
theorem edge_src_released (c : LockStatus)
    (h : statusEdgeOk c LockStatus.Released = true) :
    c = LockStatus.Acquired ∨ c = LockStatus.Releasing := by
  cases c <;> simp_all [statusEdgeOk]

/-- A successful status assignment at a time dominating every timestamp of
the lock preserves the invariant, and the result's timestamps are bounded
by that time. -/
theorem setStatus_preserves_inv (now : Int) (l : Lock) (tgt : LockStatus)
    (l' : Lock) (hinv : LockInv l) (ht : timesLe l now)
    (h : setStatus now l tgt = Except.ok l') :
    LockInv l' ∧ timesLe l' now := by
  obtain ⟨i1, i2, i3, i4, i5⟩ := hinv
  obtain ⟨t1, t2, t3⟩ := ht
  unfold setStatus at h
  split at h
  · cases h
  · rename_i hedge
    have hok : statusEdgeOk l.status tgt = true := not_not.1 hedge
    split at h
    · -- Acquired / Rejected
      rename_i hsettle
      cases h
      have hsrc := edge_src_settling _ _ hok hsettle
      have hrel : l.releasedAt = none := by
        rcases hr : l.releasedAt with _ | y
        · rfl
        · have := i2.1 (by rw [hr]; rfl)
          rw [hsrc] at this
          cases this
      refine ⟨⟨?_, ?_, ?_, ?_, ?_⟩, ?_, ?_, ?_⟩
      · simp only [Option.isSome_some, true_iff]
        rcases hsettle with h | h <;> subst h <;> simp
      · simp only [hrel, Option.isSome_none, false_iff]
        rcases hsettle with h | h <;> subst h <;> simp
      · simp [hrel]
      · intro x hx
        simp only [Option.mem_def, Option.some.injEq] at hx
        subst hx
        exact t1
      · intro x hx y hy
        simp only [hrel, Option.mem_def] at hy
        cases hy
      · exact t1
      · intro x hx
        simp only [Option.mem_def, Option.some.injEq] at hx
        subst hx
        exact le_refl now
      · intro y hy
        simp only [hrel, Option.mem_def] at hy
        cases hy
    · split at h
      · -- Released
        rename_i hneq hrelt
        split at h
        · cases h
        · rename_i sAt hsAt
          cases h
          refine ⟨⟨?_, ?_, ?_, ?_, ?_⟩, ?_, ?_, ?_⟩
          · subst hrelt
            simp [hsAt]
          · subst hrelt
            simp
          · intro _
            simp [hsAt]
          · intro x hx
            exact i4 x hx
          · intro x hx y hy
            simp only [Option.mem_def, Option.some.injEq] at hy
            subst hy
            exact t2 x hx
          · exact t1
          · exact t2
          · intro y hy
            simp only [Option.mem_def, Option.some.injEq] at hy
            subst hy
            exact le_refl now
      · -- Releasing (the only remaining edge)
        rename_i hneq hneqr
        cases h
        have htgt : tgt = LockStatus.Releasing := by
          rcases l.status <;> rcases tgt <;> simp_all [statusEdgeOk]
        have hsrc : l.status = LockStatus.Acquired := by
          rw [htgt] at hok
          exact edge_src_releasing _ hok
        have hset : l.settledAt.isSome = true := i1.2 (by rw [hsrc]; simp)
        have hrel : l.releasedAt = none := by
          rcases hr : l.releasedAt with _ | y
          · rfl
          · have := i2.1 (by rw [hr]; rfl)
            rw [hsrc] at this
            cases this
        refine ⟨⟨?_, ?_, ?_, ?_, ?_⟩, t1, t2, t3⟩
        · subst htgt
          simp [hset]
        · subst htgt
          simp [hrel]
        · intro _
          exact hset
        · exact i4
        · exact i5

/-- The initial lock satisfies the invariant. -/
theorem init_LockInv (id : Nat) (ty : LockType) (c : Int)
    (aT pI : Option Int) (nm : String) :
    LockInv (Lock.init id ty c aT pI nm) := by
  simp [LockInv, Lock.init]

/-- Running a trace of assignments whose times are nondecreasing and start
no earlier than every timestamp of the lock preserves the invariant. -/
theorem runTrace_inv (trace : List (Int × LockStatus)) :
    ∀ (l : Lock) (t0 : Int), LockInv l → timesLe l t0 →
      List.Chain' (· ≤ ·) (t0 :: trace.map Prod.fst) →
      LockInv (runTrace l trace) := by
  induction trace with
  | nil => intro l t0 h _ _; exact h
  | cons step rest ih =>
      intro l t0 hinv ht hchain
      have h01 : t0 ≤ step.1 := (List.chain'_cons.1 hchain).1
      have hchain' : List.Chain' (· ≤ ·) (step.1 :: rest.map Prod.fst) :=
        (List.chain'_cons.1 hchain).2
      have ht1 : timesLe l step.1 :=
        ⟨le_trans ht.1 h01, fun x hx => le_trans (ht.2.1 x hx) h01,
         fun y hy => le_trans (ht.2.2 y hy) h01⟩
      rcases hss : setStatus step.1 l step.2 with e | l'
      · have hr : runTrace l (step :: rest) = runTrace l rest := by
          simp [runTrace, hss]
        rw [hr]
        exact ih l step.1 hinv ht1 hchain'
      · have hr : runTrace l (step :: rest) = runTrace l' rest := by
          simp [runTrace, hss]
        rw [hr]
        obtain ⟨hinv', ht'⟩ :=
          setStatus_preserves_inv step.1 l step.2 l' hinv ht1 hss
        exact ih l' step.1 hinv' ht' hchain'

/-- C3 counterexample to the claim as stated: the freshly constructed lock
(the empty sequence of successful assignments) has no `settledAt`, yet
assigning `Released` throws the `WorkflowLockError` naming `Released` —
not the internal "Logic error" `LockError` the claim announces. -/
theorem C3_counterexample :
    setStatus 1 (Lock.init 0 LockType.Writer 0) LockStatus.Released =
      Except.error (Err.workflow 0 LockStatus.Released) ∧
    ∀ msg, Err.workflow 0 LockStatus.Released ≠ Err.lockErr 0 msg := by
  refine ⟨rfl, ?_⟩
  intro msg h
  cases h

/-- C3 amended: after any sequence of successful status assignments at
nondecreasing times, `settledAt` is defined iff the status is in
{Acquired, Rejected, Releasing, Released}, `releasedAt` is defined iff the
status is `Released` and then `settledAt` is defined, and
`createdAt ≤ settledAt ≤ releasedAt` whenever defined; an assignment to
`Released` while `settledAt` is absent always throws — the internal
"Logic error" `LockError` when the current status admits the Released edge
(`Acquired` or `Releasing`), and a `WorkflowLockError` naming `Released`
otherwise (in particular on every reachable lock without `settledAt`,
whose status is `Acquiring`). -/
theorem C3_timestamps (id : Nat) (ty : LockType) (c : Int)
    (aT pI : Option Int) (nm : String) (trace : List (Int × LockStatus))
    (hchain : List.Chain' (· ≤ ·) (c :: trace.map Prod.fst)) :
    LockInv (runTrace (Lock.init id ty c aT pI nm) trace) ∧
    (∀ (lk : Lock) (t : Int), lk.settledAt = none →
      ((lk.status = LockStatus.Acquired ∨ lk.status = LockStatus.Releasing) →
        setStatus t lk LockStatus.Released =
          Except.error (Err.lockErr lk.id
            "Logic error: the lock has to be settled for being released")) ∧
      (¬ (lk.status = LockStatus.Acquired ∨
          lk.status = LockStatus.Releasing) →
        setStatus t lk LockStatus.Released =
          Except.error (Err.workflow lk.id LockStatus.Released))) := by
  constructor
  · refine runTrace_inv trace (Lock.init id ty c aT pI nm) c
      (init_LockInv id ty c aT pI nm) ?_ hchain
    exact ⟨le_refl c, by simp [Lock.init], by simp [Lock.init]⟩
  · intro lk t hnone
    constructor
    · rintro (h | h) <;> simp [setStatus, statusEdgeOk, h, hnone]
    · intro hn
      have : statusEdgeOk lk.status LockStatus.Released = false := by
        rcases hs : lk.status <;> simp_all [statusEdgeOk]
      simp [setStatus, this]

/-- C3 witness: the full lifecycle Acquiring→Acquired→Releasing→Released
at times 0 ≤ 1 ≤ 2 ≤ 3 satisfies the invariant. -/
theorem C3_timestamps_witness :
    LockInv (runTrace (Lock.init 2 LockType.Reader 0 none none "n")
      [(1, LockStatus.Acquired), (2, LockStatus.Releasing),
       (3, LockStatus.Released)]) :=
  (C3_timestamps 2 LockType.Reader 0 none none "n"
    [(1, LockStatus.Acquired), (2, LockStatus.Releasing),
     (3, LockStatus.Released)]
    (by simp [List.chain'_cons])).1

/-! ## Storage lemmas for the GC claims -/

/-- A lock of the registry is found when its name has a queue holding its
id — the refresh phase's own test. -/
def foundIn (s : Storage) (k : Lock) : Bool :=
  match storageGet s k.name with
  | some q => queueHasId q k.id
  | none => false

theorem storageGet_map (f : Queue → Queue) (s : Storage) (n : String) :
    storageGet (s.map (fun p => (p.1, f p.2))) n =
      (storageGet s n).map f := by
  unfold storageGet
  induction s with
  | nil => rfl
  | cons p rest ih =>
      by_cases hp : (p.1 == n) = true
      · simp [List.find?_cons, hp]
      · simp only [List.map_cons, List.find?_cons, hp]
        simpa using ih

theorem storageGet_setQueue_self (s : Storage) (n : String) (q : Queue) :
    storageGet (storageSetQueue s n q) n =
      (storageGet s n).map (fun _ => q) := by
  unfold storageGet storageSetQueue
  induction s with
  | nil => rfl
  | cons p rest ih =>
      by_cases hp : p.1 = n
      · simp [List.find?_cons, hp]
      · have hb : (p.1 == n) = false := by simp [hp]
        simp only [List.map_cons, if_neg hp, List.find?_cons, hb]
        simpa using ih

theorem storageGet_setQueue_ne (s : Storage) (n m : String) (q : Queue)
    (h : m ≠ n) :
    storageGet (storageSetQueue s n q) m = storageGet s m := by
  unfold storageGet storageSetQueue
  induction s with
  | nil => rfl
  | cons p rest ih =>
      by_cases hp : p.1 = n
      · have hb : (p.1 == m) = false := by
          subst hp
          simp [Ne.symm h]
        have hb2 : (n == m) = false := by simp [Ne.symm h]
        simp only [List.map_cons, if_pos hp, List.find?_cons, hb, hb2]
        simpa using ih
      · by_cases hm : p.1 = m
        · have hbm : (p.1 == m) = true := by simp [hm]
          simp only [List.map_cons, if_neg hp, List.find?_cons, hbm]
        · have hb : (p.1 == m) = false := by simp [hm]
          simp only [List.map_cons, if_neg hp, List.find?_cons, hb]
          simpa using ih

/-- A queue holds an id exactly when its entry list does. -/
theorem queueHasId_entries (q : Queue) (id : Nat) :
    queueHasId q id = (q.map Prod.fst).any (fun e => e.id == id) := by
  induction q with
  | nil => rfl
  | cons e rest ih =>
      unfold queueHasId at ih ⊢
      simp only [List.map_cons, List.any_cons]
      rw [ih]

/-- The refresh step never changes which entries a name holds (it only
rewrites heartbeats). -/
theorem gcRefreshStep_entries (atT : Int) (acc : Storage × Nat) (k : Lock)
    (n : String) :
    (storageGet (gcRefreshStep atT acc k).1 n).map (fun q => q.map Prod.fst) =
      (storageGet acc.1 n).map (fun q => q.map Prod.fst) := by
  unfold gcRefreshStep
  rcases hq : storageGet acc.1 k.name with _ | q
  · rfl
  · by_cases hh : queueHasId q k.id = true
    · simp only [hh, if_true]
      by_cases hn : n = k.name
      · subst hn
        rw [storageGet_setQueue_self, hq]
        simp only [Option.map_some', queueRefreshId, List.map_map]
        refine congrArg some (List.map_congr_left ?_)
        intro e he
        by_cases hc : e.1.id = k.id <;> simp [Function.comp, hc]
      · rw [storageGet_setQueue_ne _ _ _ _ hn]
    · simp [hh]

/-- The whole refresh phase preserves the entries of every name. -/
theorem gcRefresh_entries (atT : Int) (registry : List Lock) :
    ∀ (acc : Storage × Nat) (n : String),
      (storageGet (registry.foldl (gcRefreshStep atT) acc).1 n).map
          (fun q => q.map Prod.fst) =
        (storageGet acc.1 n).map (fun q => q.map Prod.fst) := by
  induction registry with
  | nil => intro acc n; rfl
  | cons k rest ih =>
      intro acc n
      rw [List.foldl_cons, ih (gcRefreshStep atT acc k) n,
        gcRefreshStep_entries]

/-- `foundIn` only depends on the entries of the lock's name. -/
theorem foundIn_congr (s1 s2 : Storage) (k : Lock)
    (h : (storageGet s1 k.name).map (fun q => q.map Prod.fst) =
      (storageGet s2 k.name).map (fun q => q.map Prod.fst)) :
    foundIn s1 k = foundIn s2 k := by
  unfold foundIn
  rcases h1 : storageGet s1 k.name with _ | q1 <;>
    rcases h2 : storageGet s2 k.name with _ | q2 <;>
      rw [h1, h2] at h <;> simp_all
  rw [queueHasId_entries, queueHasId_entries, h]

/-- A refresh step on a lock that is not found leaves everything
unchanged. -/
theorem gcRefreshStep_notfound (atT : Int) (acc : Storage × Nat) (k : Lock)
    (h : foundIn acc.1 k = false) : gcRefreshStep atT acc k = acc := by
  unfold foundIn at h
  unfold gcRefreshStep
  rcases hq : storageGet acc.1 k.name with _ | q
  · rfl
  · rw [hq] at h
    simp at h
    simp [h]

/-- A refresh step on a found lock refreshes its queue and counts it. -/
theorem gcRefreshStep_found (atT : Int) (acc : Storage × Nat) (k : Lock)
    (q : Queue) (hq : storageGet acc.1 k.name = some q)
    (hh : queueHasId q k.id = true) :
    gcRefreshStep atT acc k =
      (storageSetQueue acc.1 k.name (queueRefreshId atT q k.id),
       acc.2 + 1) := by
  unfold gcRefreshStep
  rw [hq]
  simp [hh]

/-- A refresh step counts at most one lock. -/
theorem gcRefreshStep_snd (atT : Int) (acc : Storage × Nat) (k : Lock) :
    (gcRefreshStep atT acc k).2 = acc.2 ∨
      (gcRefreshStep atT acc k).2 = acc.2 + 1 := by
  unfold gcRefreshStep
  rcases storageGet acc.1 k.name with _ | q
  · left
    rfl
  · by_cases hh : queueHasId q k.id = true
    · right
      simp [hh]
    · left
      simp [hh]

/-- When every lock of the registry is found, the refresh phase counts
exactly the registry size. -/
theorem gcRefresh_count_found (atT : Int) (registry : List Lock) :
    ∀ (s : Storage) (c : Nat), (∀ k ∈ registry, foundIn s k = true) →
      (registry.foldl (gcRefreshStep atT) (s, c)).2 = c + registry.length := by
  induction registry with
  | nil =>
      intro s c _
      simp
  | cons k rest ih =>
      intro s c hall
      rw [List.foldl_cons]
      have hk := hall k (by simp)
      unfold foundIn at hk
      rcases hq : storageGet s k.name with _ | q
      · rw [hq] at hk
        cases hk
      · rw [hq] at hk
        have hstep := gcRefreshStep_found atT (s, c) k q hq hk
        rw [hstep]
        have hrest : ∀ k' ∈ rest,
            foundIn (storageSetQueue s k.name (queueRefreshId atT q k.id))
              k' = true := by
          intro k' hk'
          have hpres := gcRefreshStep_entries atT (s, c) k k'.name
          rw [hstep] at hpres
          rw [foundIn_congr _ s k' hpres]
          exact hall k' (by simp [hk'])
        rw [ih _ _ hrest]
        simp only [List.length_cons]
        omega

/-- The refresh count never exceeds the registry size. -/
theorem gcRefresh_count_le (atT : Int) (registry : List Lock) :
    ∀ (s : Storage) (c : Nat),
      (registry.foldl (gcRefreshStep atT) (s, c)).2 ≤ c + registry.length := by
  induction registry with
  | nil =>
      intro s c
      simp
  | cons k rest ih =>
      intro s c
      rw [List.foldl_cons]
      rcases hstep : gcRefreshStep atT (s, c) k with ⟨s1, c1⟩
      have hc1 : c1 ≤ c + 1 := by
        rcases gcRefreshStep_snd atT (s, c) k with h | h <;>
          rw [hstep] at h <;> simp at h <;> omega
      have := ih s1 c1
      simp only [List.length_cons]
      omega

/-- A registry lock not found in the store makes the refresh count fall
short of the registry size. -/
theorem gcRefresh_count_lt (atT : Int) (registry : List Lock) :
    ∀ (s : Storage) (c : Nat) (k : Lock), k ∈ registry →
      foundIn s k = false →
      (registry.foldl (gcRefreshStep atT) (s, c)).2 < c + registry.length := by
  induction registry with
  | nil =>
      intro s c k hk
      cases hk
  | cons k0 rest ih =>
      intro s c k hk hnf
      rw [List.foldl_cons]
      rcases List.mem_cons.1 hk with hk0 | hkr
      · subst hk0
        rw [gcRefreshStep_notfound atT (s, c) k hnf]
        have := gcRefresh_count_le atT rest s c
        simp only [List.length_cons]
        omega
      · rcases hstep : gcRefreshStep atT (s, c) k0 with ⟨s1, c1⟩
        have hc1 : c1 ≤ c + 1 := by
          rcases gcRefreshStep_snd atT (s, c) k0 with h | h <;>
            rw [hstep] at h <;> simp at h <;> omega
        have hnf1 : foundIn s1 k = false := by
          have hpres := gcRefreshStep_entries atT (s, c) k0 k.name
          rw [hstep] at hpres
          rw [foundIn_congr s1 s k hpres]
          exact hnf
        have := ih s1 c1 k hkr hnf1
        simp only [List.length_cons]
        omega

/-- Every entry of the name with the given id carries heartbeat `t`. -/
def QAll (s : Storage) (n : String) (id : Nat) (t : Int) : Prop :=
  ∀ q, storageGet s n = some q → ∀ e hb, (e, hb) ∈ q → e.id = id → hb = t

/-- Refresh steps write only the cycle's `at`, so they preserve `QAll`. -/
theorem gcRefreshStep_preserves_QAll (atT : Int) (acc : Storage × Nat)
    (k : Lock) (n : String) (id : Nat)
    (h : QAll acc.1 n id atT) : QAll (gcRefreshStep atT acc k).1 n id atT := by
  rcases hq : storageGet acc.1 k.name with _ | q
  · unfold gcRefreshStep
    rw [hq]
    exact h
  · by_cases hh : queueHasId q k.id = true
    · rw [gcRefreshStep_found atT acc k q hq hh]
      intro q' hq' e hb hmem hid
      by_cases hn : n = k.name
      · subst hn
        rw [storageGet_setQueue_self, hq] at hq'
        simp only [Option.map_some', Option.some.injEq] at hq'
        subst hq'
        unfold queueRefreshId at hmem
        rw [List.mem_map] at hmem
        obtain ⟨⟨e0, hb0⟩, hmem0, heq⟩ := hmem
        by_cases hc : e0.id = k.id
        · rw [if_pos hc] at heq
          cases heq
          rfl
        · rw [if_neg hc] at heq
          injection heq with he hhb
          subst he
          subst hhb
          exact h q hq _ _ hmem0 hid
      · rw [storageGet_setQueue_ne _ _ _ _ hn] at hq'
        exact h q' hq' e hb hmem hid
    · have hnf : foundIn acc.1 k = false := by
        unfold foundIn
        rw [hq]
        simpa using hh
      rw [gcRefreshStep_notfound atT acc k hnf]
      exact h

/-- The whole refresh phase preserves `QAll`. -/
theorem gcRefresh_preserves_QAll (atT : Int) (registry : List Lock) :
    ∀ (acc : Storage × Nat) (n : String) (id : Nat),
      QAll acc.1 n id atT →
      QAll (registry.foldl (gcRefreshStep atT) acc).1 n id atT := by
  induction registry with
  | nil =>
      intro acc n id h
      exact h
  | cons k rest ih =>
      intro acc n id h
      rw [List.foldl_cons]
      exact ih _ n id (gcRefreshStep_preserves_QAll atT acc k n id h)

/-- A refresh step on a found lock leaves every entry with its id at
heartbeat `at`. -/
theorem gcRefreshStep_establishes_QAll (atT : Int) (acc : Storage × Nat)
    (k : Lock) (hfound : foundIn acc.1 k = true) :
    QAll (gcRefreshStep atT acc k).1 k.name k.id atT := by
  unfold foundIn at hfound
  rcases hq : storageGet acc.1 k.name with _ | q
  · rw [hq] at hfound
    cases hfound
  · rw [hq] at hfound
    rw [gcRefreshStep_found atT acc k q hq hfound]
    intro q' hq' e hb hmem hid
    rw [storageGet_setQueue_self, hq] at hq'
    simp only [Option.map_some', Option.some.injEq] at hq'
    subst hq'
    unfold queueRefreshId at hmem
    rw [List.mem_map] at hmem
    obtain ⟨⟨e0, hb0⟩, hmem0, heq⟩ := hmem
    by_cases hc : e0.id = k.id
    · rw [if_pos hc] at heq
      cases heq
      rfl
    · rw [if_neg hc] at heq
      cases heq
      exact absurd hid hc

/-- After the refresh phase, every registry lock found throughout has all
of its entries at heartbeat `at`. -/
theorem gcRefresh_QAll_found (atT : Int) (registry : List Lock) :
    ∀ (acc : Storage × Nat), (∀ k ∈ registry, foundIn acc.1 k = true) →
      ∀ k ∈ registry,
        QAll (registry.foldl (gcRefreshStep atT) acc).1 k.name k.id atT := by
  induction registry with
  | nil =>
      intro acc _ k hk
      cases hk
  | cons k0 rest ih =>
      intro acc hall k hk
      rw [List.foldl_cons]
      rcases List.mem_cons.1 hk with hk0 | hkr
      · subst hk0
        exact gcRefresh_preserves_QAll atT rest _ k.name k.id
          (gcRefreshStep_establishes_QAll atT acc k (hall k (by simp)))
      · have hrest : ∀ k' ∈ rest,
            foundIn (gcRefreshStep atT acc k0).1 k' = true := by
          intro k' hk'
          rw [foundIn_congr _ acc.1 k'
            (gcRefreshStep_entries atT acc k0 k'.name)]
          exact hall k' (by simp [hk'])
        exact ih (gcRefreshStep atT acc k0) hrest k hkr

/-! ## C6 -/

/-- C6: `Locker.gc` passes `at = now` and `staleAt = at - gcInterval * 2`
to the adapter's gc; when every registry lock is present with a fresh
heartbeat, the cycle returns `collectedCount` = the number of queue
entries whose heartbeat is strictly older than `staleAt` and
`refreshedCount` = the registry size, refreshes the heartbeat of every
registry lock's entry to `at`, and the surviving entries of every name are
exactly those that were not stale. -/
theorem C6_locker_gc (g now : Int) (registry : List Lock) (s : Storage)
    (hg : 1 ≤ g)
    (hreg : ∀ k ∈ registry, ∃ q, storageGet s k.name = some q ∧
      ∃ e hb, (e, hb) ∈ q ∧ e.id = k.id ∧ now - g * 2 ≤ hb) :
    (lockerGc (some g) registry now s).2 =
      some (Except.ok ⟨(s.map (fun p => staleCount (now - g * 2) p.2)).sum,
        registry.length⟩) ∧
    (∀ k ∈ registry, ∀ q,
      storageGet (lockerGc (some g) registry now s).1 k.name = some q →
      ∀ e hb, (e, hb) ∈ q → e.id = k.id → hb = now) ∧
    (∀ n, (storageGet (lockerGc (some g) registry now s).1 n).map
        (fun q => q.map Prod.fst) =
      (storageGet s n).map
        (fun q => (collectQueue (now - g * 2) q).map Prod.fst)) := by
  have hg0 : g ≠ 0 := by omega
  have hcget : ∀ n, storageGet (gcCollect (now - g * 2) s).1 n =
      (storageGet s n).map (collectQueue (now - g * 2)) := by
    intro n
    unfold gcCollect
    exact storageGet_map (collectQueue (now - g * 2)) s n
  have hfound : ∀ k ∈ registry,
      foundIn (gcCollect (now - g * 2) s).1 k = true := by
    intro k hk
    obtain ⟨q, hq, e, hb, hmem, hid, hfresh⟩ := hreg k hk
    unfold foundIn
    rw [hcget, hq]
    simp only [Option.map_some']
    unfold queueHasId collectQueue
    rw [List.any_eq_true]
    refine ⟨(e, hb), List.mem_filter.2 ⟨hmem, ?_⟩, by simp [hid]⟩
    simp only [decide_eq_true_eq, not_lt]
    exact hfresh
  have hr2 : (gcRefresh now (gcCollect (now - g * 2) s).1 registry).2 =
      registry.length := by
    unfold gcRefresh
    rw [gcRefresh_count_found now registry _ 0 hfound]
    omega
  have hcall : lockerGc (some g) registry now s =
      ((gcRefresh now (gcCollect (now - g * 2) s).1 registry).1,
       some (Except.ok
         ⟨(s.map (fun p => staleCount (now - g * 2) p.2)).sum,
          registry.length⟩)) := by
    have hc2 : (gcCollect (now - g * 2) s).2 =
        (s.map (fun p => staleCount (now - g * 2) p.2)).sum := rfl
    simp only [lockerGc, inMemoryGc, hg0, ne_eq, not_false_eq_true,
      if_true, hr2, hc2, not_true_eq_false, if_false]
  refine ⟨?_, ?_, ?_⟩
  · rw [hcall]
  · intro k hk q hq e hb hmem hid
    rw [hcall] at hq
    have hQ := gcRefresh_QAll_found now registry
      ((gcCollect (now - g * 2) s).1, 0) hfound k hk
    unfold gcRefresh at hq
    exact hQ q hq e hb hmem hid
  · intro n
    rw [hcall]
    have h1 := gcRefresh_entries now registry
      ((gcCollect (now - g * 2) s).1, 0) n
    unfold gcRefresh
    rw [h1]
    simp only
    rw [hcget n, Option.map_map]
    rfl

/-- A concrete registered, acquired lock under name `a` for the C6
witness. -/
def c6lock : Lock :=
  { id := 1
    name := "a"
    type := LockType.Writer
    status := LockStatus.Acquired
    createdAt := 0
    settledAt := some 1 }

/-- C6 witness: with gc interval 1 at time 10 (`staleAt = 8`), the stale
entry (heartbeat 0) of name `a` is collected, the registered lock's entry
(heartbeat 10) is refreshed, and the cycle reports 1 collected and 1
refreshed. -/
theorem C6_locker_gc_witness :
    (lockerGc (some 1) [c6lock] 10
      [("a", [(⟨1, LockType.Writer⟩, 10), (⟨2, LockType.Reader⟩, 0)])]).2 =
      some (Except.ok ⟨1, 1⟩) :=
  (C6_locker_gc 1 10 [c6lock]
    [("a", [(⟨1, LockType.Writer⟩, 10), (⟨2, LockType.Reader⟩, 0)])]
    (by norm_num)
    (by
      intro k hk
      simp only [List.mem_singleton] at hk
      subst hk
      exact ⟨[(⟨1, LockType.Writer⟩, 10), (⟨2, LockType.Reader⟩, 0)], rfl,
        ⟨1, LockType.Writer⟩, 10, by simp, rfl, by norm_num⟩)).1

/-! ## C10 -/

/-- C10: when some registry lock is not present in its name's queue after
the collect phase (collected as stale, or no queue for the name), the
in-memory gc throws the `LockerError` "The garbage collecting cycle missed
N lock(s)" with `N ≥ 1` instead of returning a cycle, and the storage it
leaves behind is the one already mutated by the collect phase and the
other refreshes. -/
theorem C10_gc_missed (registry : List Lock) (atT staleAt : Int)
    (s : Storage) (k : Lock) (hk : k ∈ registry)
    (hmiss : foundIn (gcCollect staleAt s).1 k = false) :
    0 < registry.length -
      (gcRefresh atT (gcCollect staleAt s).1 registry).2 ∧
    inMemoryGc registry atT staleAt s =
      ((gcRefresh atT (gcCollect staleAt s).1 registry).1,
       Except.error (Err.lockerErr
         ("The garbage collecting cycle missed " ++
           toString (registry.length -
             (gcRefresh atT (gcCollect staleAt s).1 registry).2) ++
           " lock(s)"))) := by
  have hlt : (gcRefresh atT (gcCollect staleAt s).1 registry).2 <
      registry.length := by
    unfold gcRefresh
    have := gcRefresh_count_lt atT registry (gcCollect staleAt s).1 0 k hk
      hmiss
    omega
  refine ⟨by omega, ?_⟩
  unfold inMemoryGc
  rw [if_pos (by omega :
    (gcRefresh atT (gcCollect staleAt s).1 registry).2 ≠ registry.length)]

/-- A registered lock under the absent name `b` for the C10 witness. -/
def c10lock : Lock :=
  { id := 7
    name := "b"
    type := LockType.Reader
    status := LockStatus.Acquired
    createdAt := 0
    settledAt := some 1 }

/-- C10 witness: gc over an empty store with one registered lock throws
the missed-1-lock `LockerError` while returning no cycle. -/
theorem C10_gc_missed_witness :
    0 < ([c10lock] : List Lock).length -
      (gcRefresh 5 (gcCollect 0 []).1 [c10lock]).2 ∧
    inMemoryGc [c10lock] 5 0 [] =
      ((gcRefresh 5 (gcCollect 0 []).1 [c10lock]).1,
       Except.error (Err.lockerErr
         ("The garbage collecting cycle missed " ++
           toString (([c10lock] : List Lock).length -
             (gcRefresh 5 (gcCollect 0 []).1 [c10lock]).2) ++
           " lock(s)"))) :=
  C10_gc_missed [c10lock] 5 0 [] c10lock (by simp) rfl
